import Mathlib

/-!
Shallow embedding of the data-processing pipeline in
`scripts/process_data.py` of the near-southside-data-map repository,
together with proofs about the properties claimed of it.

Conventions of the embedding:
* pandas floating-point cells are modelled by `PVal`: a rational number,
  `nan` (pandas missing value), or a signed infinity.  The claims under
  study depend only on the special-value propagation of `+ - /` and on
  exact ratios of integer counts, which this extended-rational model
  captures without floating-point rounding.
* dataframes are lists of rows (structures), kept in frame order;
  `merge`, `sjoin`, `melt`, `groupby().diff()`, `groupby().idxmax()` are
  translated operation by operation below, next to their uses.
* geometry and the `shapely` predicates are external collaborators: a
  geometry is abstract, and the `intersects` / `contains` predicates are
  parameters of the functions that call them, exactly as the script
  defers those tests to the library.
-/

/-- A pandas numeric cell: missing (`NaN`), `±inf`, or a finite value. -/
inductive PVal where
  | nan  : PVal
  | pinf : PVal
  | ninf : PVal
  | num  : ℚ → PVal
deriving DecidableEq, Repr

/-- IEEE-style addition on `PVal` (pandas `+` between float columns). -/
def PVal.add : PVal → PVal → PVal
  | nan, _ => nan
  | _, nan => nan
  | pinf, ninf => nan
  | ninf, pinf => nan
  | pinf, _ => pinf
  | _, pinf => pinf
  | ninf, _ => ninf
  | _, ninf => ninf
  | num a, num b => num (a + b)

/-- IEEE-style subtraction on `PVal` (pandas `-`, used by `diff`). -/
def PVal.sub : PVal → PVal → PVal
  | nan, _ => nan
  | _, nan => nan
  | pinf, pinf => nan
  | ninf, ninf => nan
  | pinf, _ => pinf
  | ninf, _ => ninf
  | _, pinf => ninf
  | _, ninf => pinf
  | num a, num b => num (a - b)

/-- IEEE-style division on `PVal` (pandas `/` between float columns):
`0/0 = NaN`, `x/0 = ±inf` for finite nonzero `x`, `NaN` propagates. -/
def PVal.div : PVal → PVal → PVal
  | nan, _ => nan
  | _, nan => nan
  | pinf, pinf => nan
  | pinf, ninf => nan
  | ninf, pinf => nan
  | ninf, ninf => nan
  | pinf, num b => if b < 0 then ninf else pinf
  | ninf, num b => if b < 0 then pinf else ninf
  | num _, pinf => num 0
  | num _, ninf => num 0
  | num a, num b =>
      if b = 0 then (if a = 0 then nan else if a < 0 then ninf else pinf)
      else num (a / b)

/-- One step of the `skipna` row sum: missing cells leave the
accumulator unchanged. -/
def addSkipNaN (acc x : PVal) : PVal :=
  match x with
  | .nan => acc
  | y => acc.add y

/-- pandas `DataFrame.sum(axis=1)` with its default `skipna=True`:
missing cells are skipped, and a row of only-missing cells sums to `0`. -/
def psum (xs : List PVal) : PVal :=
  xs.foldl addSkipNaN (.num 0)

/-- The finite value of a cell, reading a missing cell as `0`
(reference function used to phrase what the skipna sum computes). -/
def qOfPVal : PVal → ℚ
  | .num q => q
  | _ => 0

/-- The sex/age-bin columns of one ACS row (all `B01001` extracts the
script renames and coerces; only these feed `compute_age_bands`). -/
structure AgeCols where
  male_under5 : PVal
  male_5_9 : PVal
  male_10_14 : PVal
  male_15_17 : PVal
  male_18_19 : PVal
  male_20 : PVal
  male_21 : PVal
  male_22_24 : PVal
  male_25_29 : PVal
  male_30_34 : PVal
  male_35_39 : PVal
  male_40_44 : PVal
  male_45_49 : PVal
  male_50_54 : PVal
  male_55_59 : PVal
  male_60_61 : PVal
  male_62_64 : PVal
  male_65_66 : PVal
  male_67_69 : PVal
  male_70_74 : PVal
  male_75_79 : PVal
  male_80_84 : PVal
  male_85_plus : PVal
  female_under5 : PVal
  female_5_9 : PVal
  female_10_14 : PVal
  female_15_17 : PVal
  female_18_19 : PVal
  female_20 : PVal
  female_21 : PVal
  female_22_24 : PVal
  female_25_29 : PVal
  female_30_34 : PVal
  female_35_39 : PVal
  female_40_44 : PVal
  female_45_49 : PVal
  female_50_54 : PVal
  female_55_59 : PVal
  female_60_61 : PVal
  female_62_64 : PVal
  female_65_66 : PVal
  female_67_69 : PVal
  female_70_74 : PVal
  female_75_79 : PVal
  female_80_84 : PVal
  female_85_plus : PVal
deriving DecidableEq

/-- The `under18_cols` column list of `compute_age_bands`. -/
def under18_cols (r : AgeCols) : List PVal :=
  [r.male_under5, r.male_5_9, r.male_10_14, r.male_15_17,
   r.female_under5, r.female_5_9, r.female_10_14, r.female_15_17]

/-- The `age_18_64_cols` column list of `compute_age_bands`. -/
def age_18_64_cols (r : AgeCols) : List PVal :=
  [r.male_18_19, r.male_20, r.male_21, r.male_22_24, r.male_25_29,
   r.male_30_34, r.male_35_39, r.male_40_44, r.male_45_49, r.male_50_54,
   r.male_55_59, r.male_60_61, r.male_62_64,
   r.female_18_19, r.female_20, r.female_21, r.female_22_24, r.female_25_29,
   r.female_30_34, r.female_35_39, r.female_40_44, r.female_45_49,
   r.female_50_54, r.female_55_59, r.female_60_61, r.female_62_64]

/-- The `age_65_plus_cols` column list of `compute_age_bands`. -/
def age_65_plus_cols (r : AgeCols) : List PVal :=
  [r.male_65_66, r.male_67_69, r.male_70_74, r.male_75_79, r.male_80_84,
   r.male_85_plus, r.female_65_66, r.female_67_69, r.female_70_74,
   r.female_75_79, r.female_80_84, r.female_85_plus]

/-- `df["age_under18"] = df[under18_cols].sum(axis=1)`. -/
def age_under18 (r : AgeCols) : PVal := psum (under18_cols r)

/-- `df["age_18_64"] = df[age_18_64_cols].sum(axis=1)`. -/
def age_18_64 (r : AgeCols) : PVal := psum (age_18_64_cols r)

/-- `df["age_65_plus"] = df[age_65_plus_cols].sum(axis=1)`. -/
def age_65_plus (r : AgeCols) : PVal := psum (age_65_plus_cols r)

/-- An `AgeCols` row with the same value in every column. -/
def constAgeCols (c : PVal) : AgeCols :=
  ⟨c, c, c, c, c, c, c, c, c, c, c, c, c, c, c, c, c, c, c, c, c, c, c,
   c, c, c, c, c, c, c, c, c, c, c, c, c, c, c, c, c, c, c, c, c, c, c⟩

/-- The columns of one ACS row that feed `compute_rates`. -/
structure RateCols where
  poverty_pop : PVal
  poverty_total : PVal
  owner_occ : PVal
  renter_occ : PVal
  edu_ba : PVal
  edu_ma : PVal
  edu_prof : PVal
  edu_phd : PVal
  edu_total_25plus : PVal
  race_hispanic : PVal
  race_total : PVal
deriving DecidableEq

/-- `df["poverty_rate"] = df["poverty_pop"] / df["poverty_total"]`. -/
def poverty_rate (r : RateCols) : PVal := r.poverty_pop.div r.poverty_total

/-- `df["owner_rate"] = df["owner_occ"] / (df["owner_occ"] + df["renter_occ"])`. -/
def owner_rate (r : RateCols) : PVal := r.owner_occ.div (r.owner_occ.add r.renter_occ)

/-- `df["renter_rate"] = df["renter_occ"] / (df["owner_occ"] + df["renter_occ"])`. -/
def renter_rate (r : RateCols) : PVal := r.renter_occ.div (r.owner_occ.add r.renter_occ)

/-- `df["ba_plus"] = df["edu_ba"] + df["edu_ma"] + df["edu_prof"] + df["edu_phd"]`. -/
def ba_plus (r : RateCols) : PVal := ((r.edu_ba.add r.edu_ma).add r.edu_prof).add r.edu_phd

/-- `df["ba_plus_rate"] = df["ba_plus"] / df["edu_total_25plus"]`. -/
def ba_plus_rate (r : RateCols) : PVal := (ba_plus r).div r.edu_total_25plus

/-- `df["hispanic_rate"] = df["race_hispanic"] / df["race_total"]`. -/
def hispanic_rate (r : RateCols) : PVal := r.race_hispanic.div r.race_total

/-- A `RateCols` row with the same value in every column. -/
def constRateCols (c : PVal) : RateCols := ⟨c, c, c, c, c, c, c, c, c, c, c⟩

/-- Lexicographic strict order on character lists, the order pandas uses
when sorting a string column (code-point lexicographic). -/
def charListLtb : List Char → List Char → Bool
  | [], [] => false
  | [], _ :: _ => true
  | _ :: _, [] => false
  | a :: as, b :: bs => if a < b then true else if b < a then false else charListLtb as bs

/-- Lexicographic strict order on strings (computable form). -/
def strLtb (a b : String) : Bool := charListLtb a.data b.data

/-- A tract row of the tract boundary file: its `GEOID` and geometry.
The geometry type `G` is abstract (shapely is an external collaborator). -/
structure TractRow (G : Type) where
  GEOID : String
  geometry : G
deriving DecidableEq

/-- The tract boundary layer: a coordinate reference system tag and rows. -/
structure TractsFrame (G : Type) where
  crs : String
  rows : List (TractRow G)

/-- The redevelopment boundary layer as read from file: a CRS tag, its
column schema (name, is-object-dtype) and rows.  A row is its cells
(total lookup by column name, values as their `astype(str)` images) and
its geometry. -/
structure RedevFrame (G : Type) where
  crs : String
  cols : List (String × Bool)
  rows : List ((String → String) × G)

/-- The candidate list of `pick_name_column`. -/
def name_candidates : List String :=
  ["ORG_NAME", "ORGANIZATION", "REDEV_ORG", "REDEV_NAME", "NAME", "ORG"]

/-- `pick_name_column`: first candidate present among the columns, else
the first object-dtype column, else the first column. -/
def pick_name_column (cols : List (String × Bool)) : String :=
  match name_candidates.find? (fun c => cols.any (fun p => p.1 == c)) with
  | some c => c
  | none =>
    match cols.find? (fun p => p.2) with
    | some p => p.1
    | none => ((cols.head?).map (fun p => p.1)).getD ""

/-- The values of the resolved name column over the boundary file's rows
(the pool of possible redevelopment labels). -/
def redev_name_values {G : Type} (rf : RedevFrame G) : List String :=
  rf.rows.map (fun e => e.1 (pick_name_column rf.cols))

/-- The redevelopment layer in the state `add_redev_to_tracts` passes to
`gpd.sjoin`: `redev_name` column resolved and stringified, columns cut
down to `["redev_name", "geometry"]`.  None of those steps touches the
frame's CRS, which is carried along unchanged. -/
structure RedevJoinFrame (G : Type) where
  crs : String
  rows : List (String × G)

/-- The frame-preparation steps of `add_redev_to_tracts` before the join:
`redev["redev_name"] = redev[name_col].astype(str)` and the column
subset.  (No `to_crs` call occurs anywhere in the function.) -/
def redevAtJoin {G : Type} (rf : RedevFrame G) : RedevJoinFrame G :=
  ⟨rf.crs, rf.rows.map (fun e => (e.1 (pick_name_column rf.cols), e.2))⟩

/-- `gpd.sjoin(tracts, redev, predicate="intersects", how="left")`: each
tract row is paired with every boundary row whose geometry intersects it
(in boundary order), or with a missing label when none does. -/
def sjoin_left {G : Type} (intersects : G → G → Bool)
    (tracts : List (TractRow G)) (redev : List (String × G)) :
    List (TractRow G × Option String) :=
  tracts.flatMap (fun t =>
    match redev.filter (fun r => intersects t.geometry r.2) with
    | [] => [(t, none)]
    | ms => ms.map (fun r => (t, some r.1)))

/-- `add_redev_to_tracts`: resolve the name column, spatial left join on
`intersects`, then `fillna("None")` on the label. -/
def add_redev_to_tracts {G : Type} (intersects : G → G → Bool)
    (tracts : TractsFrame G) (redev : RedevFrame G) : List (TractRow G × String) :=
  (sjoin_left intersects tracts.rows (redevAtJoin redev).rows).map
    (fun e => (e.1, e.2.getD "None"))

/-- One ACS record after normalisation and indicator derivation: its
join keys and the (ordered) numeric indicator columns. -/
structure AcsDataRow where
  geoid : String
  year : Int
  vals : List PVal
deriving DecidableEq

/-- One row of the assembled panel (the `keep_cols` projection): join
keys, redevelopment label, and the numeric indicator columns. -/
structure PanelRow where
  geoid : String
  year : Int
  redev_name : String
  vals : List PVal
deriving DecidableEq

/-- `tracts[["GEOID", "redev_name"]]`: the tract-to-label table taken
from the output of `add_redev_to_tracts` (duplicates included). -/
def tractLabels {G : Type} (intersects : G → G → Bool)
    (tracts : TractsFrame G) (redev : RedevFrame G) : List (String × String) :=
  (add_redev_to_tracts intersects tracts redev).map (fun e => (e.1.GEOID, e.2))

/-- The panel rows one ACS record contributes to the label merge: one
row per matching label row, or a single `"None"`-labelled row when no
label matches (`how="left"` with `fillna`). -/
def mergeBlock (a : AcsDataRow) (labels : List (String × String)) : List PanelRow :=
  match labels.filter (fun l => l.1 == a.geoid) with
  | [] => [⟨a.geoid, a.year, "None", a.vals⟩]
  | ms => ms.map (fun l => ⟨a.geoid, a.year, l.2, a.vals⟩)

/-- `acs.merge(labels, left_on="geoid", right_on="GEOID", how="left")`
followed by `fillna("None")` on the label: each ACS row is paired with
every label row sharing its geoid, or labelled `"None"` when none does. -/
def mergeLabels (acs : List AcsDataRow) (labels : List (String × String)) : List PanelRow :=
  acs.flatMap (fun a => mergeBlock a labels)

/-- The sort key order of `panel.sort_values(["geoid", "year"])`. -/
def panelLE (a b : PanelRow) : Prop :=
  strLtb a.geoid b.geoid = true ∨ (a.geoid = b.geoid ∧ a.year ≤ b.year)

instance : DecidableRel panelLE := fun a b =>
  inferInstanceAs (Decidable (strLtb a.geoid b.geoid = true ∨ (a.geoid = b.geoid ∧ a.year ≤ b.year)))

/-- `panel.sort_values(["geoid", "year"])` (a stable comparison sort). -/
def sortPanel (rows : List PanelRow) : List PanelRow :=
  List.insertionSort panelLE rows

/-- `panel.groupby("geoid")[col].diff()` for all indicator columns at
once: each row's delta list is its values minus the values of the most
recent earlier row with the same geoid, and all-`NaN` when there is no
such row.  `seen` accumulates the most recent values per geoid. -/
def diffByGroup : List (String × List PVal) → List PanelRow → List (PanelRow × List PVal)
  | _, [] => []
  | seen, r :: rest =>
    (r,
      match seen.find? (fun p => p.1 == r.geoid) with
      | none => r.vals.map (fun _ => PVal.nan)
      | some p => (r.vals.zip p.2).map (fun q => q.1.sub q.2)) ::
    diffByGroup ((r.geoid, r.vals) :: seen) rest

/-- Reference form of the grouped diff restricted to one group: the
state is just the previous row's values within the group. -/
def diffWithin : Option (List PVal) → List PanelRow → List (PanelRow × List PVal)
  | _, [] => []
  | prev, r :: rest =>
    (r, match prev with
        | none => r.vals.map (fun _ => PVal.nan)
        | some pv => (r.vals.zip pv).map (fun q => q.1.sub q.2)) ::
      diffWithin (some r.vals) rest

/-- The panel-assembly core of `prepare_acs_panel`: label merge, sort by
`(geoid, year)`, grouped year-over-year diff.  The result pairs each
panel row with its delta columns. -/
def prepare_acs_panel {G : Type} (intersects : G → G → Bool)
    (acs : List AcsDataRow) (tracts : TractsFrame G) (redev : RedevFrame G) :
    List (PanelRow × List PVal) :=
  diffByGroup [] (sortPanel (mergeLabels acs (tractLabels intersects tracts redev)))

/-- Number of panel rows carrying the key `(g, y)`. -/
def panelKeyCount (panel : List (PanelRow × List PVal)) (g : String) (y : Int) : Nat :=
  panel.countP (fun e => e.1.geoid == g && e.1.year == y)

/-- The 20 fixed sector-count columns, in `SECTOR_MAP` key order. -/
def sector_cols : List String :=
  ["CNS01", "CNS02", "CNS03", "CNS04", "CNS05", "CNS06", "CNS07",
   "CNS08", "CNS09", "CNS10", "CNS11", "CNS12", "CNS13", "CNS14",
   "CNS15", "CNS16", "CNS17", "CNS18", "CNS19", "CNS20"]

/-- The `SECTOR_MAP` code-to-display-name table. -/
def sector_map : List (String × String) :=
  [("CNS01", "Agriculture_Forestry_Fishing"),
   ("CNS02", "Mining"),
   ("CNS03", "Utilities"),
   ("CNS04", "Construction"),
   ("CNS05", "Manufacturing"),
   ("CNS06", "Wholesale_Trade"),
   ("CNS07", "Retail_Trade"),
   ("CNS08", "Transportation_Warehousing"),
   ("CNS09", "Information"),
   ("CNS10", "Finance_Insurance"),
   ("CNS11", "Real_Estate_Rental"),
   ("CNS12", "Professional_Scientific_Technical"),
   ("CNS13", "Management_Companies"),
   ("CNS14", "Admin_Waste_Services"),
   ("CNS15", "Educational_Services"),
   ("CNS16", "Health_Care_Social_Assistance"),
   ("CNS17", "Arts_Entertainment_Recreation"),
   ("CNS18", "Accommodation_Food_Services"),
   ("CNS19", "Other_Services"),
   ("CNS20", "Public_Administration")]

/-- One row of the aggregated tract-by-sector table (`lodes` after
`groupby("geoid").sum()` and the inner join that attaches the
redevelopment label): a tract, its label, and its summed count per
sector column. -/
structure LodesAggRow where
  geoid : String
  redev_name : String
  counts : String → Int

/-- One row of the melted long-form table `long_df`. -/
structure LongRow where
  geoid : String
  redev_name : String
  naics_sector : String
  jobs : Int
  sector_name : Option String
deriving DecidableEq

/-- One melted row: the `(tract, sector)` cell of the wide table,
with the display name attached by `map(SECTOR_MAP)`. -/
def meltRow (s : String) (r : LodesAggRow) : LongRow :=
  ⟨r.geoid, r.redev_name, s, r.counts s, sector_map.lookup s⟩

/-- `lodes.melt(id_vars=["geoid", "redev_name"], value_vars=sector_cols)`
followed by `long_df["naics_sector"].map(SECTOR_MAP)`: one block of rows
per sector column, each block listing the source rows in order. -/
def meltLodes (rows : List LodesAggRow) : List LongRow :=
  sector_cols.flatMap (fun s => rows.map (meltRow s))

/-- `idxmax` over one group: the first row (in frame order) whose job
count attains the group's maximum. -/
def argmaxFirst (l : List LongRow) : Option LongRow :=
  l.foldl (fun acc r =>
    match acc with
    | none => some r
    | some m => if m.jobs < r.jobs then some r else acc) none

/-- First occurrences of each value, in order of appearance. -/
def firstOccAux (seen : List String) : List String → List String
  | [] => []
  | x :: xs => if x ∈ seen then firstOccAux seen xs else x :: firstOccAux (x :: seen) xs

/-- The distinct values of a list, in order of first appearance. -/
def firstOcc (l : List String) : List String := firstOccAux [] l

/-- `long_df.loc[long_df.groupby("geoid")["jobs"].idxmax()]`: one row per
tract identifier, the first row of its group attaining the maximum job
count.  (The embedding keeps groups in first-appearance order; the claims
under study do not depend on the relative order of distinct tracts.) -/
def dominantRows (long : List LongRow) : List LongRow :=
  (firstOcc (long.map (fun r => r.geoid))).filterMap
    (fun g => argmaxFirst (long.filter (fun r => r.geoid == g)))

/-- An abstract tract geometry as the dot sampler uses it: its bounding
rectangle `(minx, miny, maxx, maxy)` and the shapely strict containment
predicate `contains` (boundary points excluded), kept abstract. -/
structure TGeom where
  minx : ℚ
  miny : ℚ
  maxx : ℚ
  maxy : ℚ
  contains : ℚ × ℚ → Bool

/-- `random.uniform(a, b)` applied to the unit draw `u`. -/
def uniformQ (a b u : ℚ) : ℚ := a + (b - a) * u

/-- The point produced by attempt `i` of a placement loop that starts at
stream position `s`: each attempt consumes two unit draws (x then y). -/
def attemptPt (geom : TGeom) (g : Nat → ℚ) (s i : Nat) : ℚ × ℚ :=
  (uniformQ geom.minx geom.maxx (g (s + 2 * i)),
   uniformQ geom.miny geom.maxy (g (s + 2 * i + 1)))

/-- The `for _attempt in range(20)` rejection loop for a single dot, with
the attempt budget as the last argument: draw a point in the bounding
rectangle, accept the first one strictly inside the polygon, give up when
the budget is exhausted.  Returns the accepted point (if any) and the
next unread stream position. -/
def attemptLoop (geom : TGeom) (g : Nat → ℚ) : Nat → Nat → Option (ℚ × ℚ) × Nat
  | s, 0 => (none, s)
  | s, n + 1 =>
    let x := uniformQ geom.minx geom.maxx (g s)
    let y := uniformQ geom.miny geom.maxy (g (s + 1))
    if geom.contains (x, y) then (some (x, y), s + 2)
    else attemptLoop geom g (s + 2) n

/-- The `for _ in range(count)` loop of one `(tract, sector)` row: one
20-attempt placement per requested dot, silently skipping a dot whose
attempts are exhausted.  Returns the accepted points in order and the
next unread stream position. -/
def rowDots (geom : TGeom) (g : Nat → ℚ) : Nat → Nat → List (ℚ × ℚ) × Nat
  | s, 0 => ([], s)
  | s, k + 1 =>
    match attemptLoop geom g s 20 with
    | (some p, s2) =>
      let rest := rowDots geom g s2 k
      (p :: rest.1, rest.2)
    | (none, s2) => rowDots geom g s2 k

/-- `min(int(row.jobs // jobs_per_dot), max_dots_per_tract)` with
`jobs_per_dot = 50` and `max_dots_per_tract = 250`; for the positive
`jobs` the sampler admits, Python floor division agrees with `Nat`
division of `jobs.toNat`. -/
def dotTarget (jobs : Int) : Nat := min (jobs.toNat / 50) 250

/-- One synthesized job dot and its attributes. -/
structure Dot where
  point : ℚ × ℚ
  geoid : String
  redev_name : String
  naics_sector : String
  sector_name : Option String
deriving DecidableEq

/-- The dot-synthesis pass over `long_df`, keeping the dots of each row
with that row: rows with `jobs <= 0` are skipped (and consume no draws),
every other row asks for `dotTarget` dots.  `geomOf` is the
`tracts_index.loc[geoid, "geometry"]` lookup (total: the inner join
guarantees every melted geoid is a tract). -/
def synthPerRow (geomOf : String → TGeom) (g : Nat → ℚ) :
    List LongRow → Nat → List (LongRow × List (ℚ × ℚ))
  | [], _ => []
  | r :: rest, s =>
    if r.jobs ≤ 0 then (r, []) :: synthPerRow geomOf g rest s
    else
      (r, (rowDots (geomOf r.geoid) g s (dotTarget r.jobs)).1) ::
        synthPerRow geomOf g rest (rowDots (geomOf r.geoid) g s (dotTarget r.jobs)).2

/-- The flat dot list in the order the script appends to `dots`. -/
def dotSynthesis (geomOf : String → TGeom) (g : Nat → ℚ)
    (rows : List LongRow) (s : Nat) : List Dot :=
  (synthPerRow geomOf g rows s).flatMap
    (fun e => e.2.map (fun p => ⟨p, e.1.geoid, e.1.redev_name, e.1.naics_sector, e.1.sector_name⟩))

/-- One step of a deterministic pseudo-random generator (the model of the
`random` module's seeded generator; the claims depend only on its being a
fixed deterministic stream, not on its distribution). -/
def lcgStep (s : Nat) : Nat := (1664525 * s + 1013904223) % 4294967296

/-- The generator state after `n + 1` steps from the given seed. -/
def seededDraw (seed : Nat) : Nat → Nat
  | 0 => lcgStep (seed % 4294967296)
  | n + 1 => lcgStep (seededDraw seed n)

/-- The unit-interval draw stream of the generator seeded with `seed`. -/
def seededStream (seed : Nat) (n : Nat) : ℚ := (seededDraw seed n : ℚ) / 4294967296

/-- The whole dot-synthesis pass of `process_lodes` as a function of the
pre-existing global generator state: `random.seed(42)` discards that
state (both the stream, `gPrior`, and the position in it, `posPrior`) and
restarts the fixed seeded stream at position zero. -/
def run_dot_pass (geomOf : String → TGeom) (rows : List LongRow)
    (_gPrior : Nat → ℚ) (_posPrior : Nat) : List Dot :=
  dotSynthesis geomOf (seededStream 42) rows 0

/-- An `intersects` oracle under which every pair of geometries meets
(concrete instantiations below use `Nat` as the geometry type). -/
def allIntersect : Nat → Nat → Bool := fun _ _ => true

/-- Concrete tract layer: a single tract `"a"`. -/
def ce1Tracts : TractsFrame Nat := ⟨"EPSG:4326", [⟨"a", 0⟩]⟩

/-- Concrete boundary layer with two boundaries, named `"A"` and `"B"`
in an `ORG_NAME` column, both of which intersect tract `"a"`. -/
def ce1Redev : RedevFrame Nat :=
  ⟨"EPSG:4326", [("ORG_NAME", true)], [(fun _ => "A", 0), (fun _ => "B", 1)]⟩

/-- Concrete ACS input: one record for tract `"a"` in year 2020. -/
def ce1Acs : List AcsDataRow := [⟨"a", 2020, [PVal.num 1]⟩]

/-- Concrete boundary layer with a single boundary named `"A"`. -/
def w1Redev : RedevFrame Nat :=
  ⟨"EPSG:4326", [("ORG_NAME", true)], [(fun _ => "A", 0)]⟩

/-- An age row whose `male_under5` cell is missing and whose other
45 cells are all `1`. -/
def ageRowCE : AgeCols :=
  ⟨.nan, .num 1, .num 1, .num 1, .num 1, .num 1, .num 1, .num 1, .num 1,
   .num 1, .num 1, .num 1, .num 1, .num 1, .num 1, .num 1, .num 1, .num 1,
   .num 1, .num 1, .num 1, .num 1, .num 1, .num 1, .num 1, .num 1, .num 1,
   .num 1, .num 1, .num 1, .num 1, .num 1, .num 1, .num 1, .num 1, .num 1,
   .num 1, .num 1, .num 1, .num 1, .num 1, .num 1, .num 1, .num 1, .num 1,
   .num 1⟩

/-- A rate row with the given poverty numerator/denominator and tenure
counts; the remaining columns are `0` (they do not feed these rates). -/
def rateRowOf (pp pt own rent : PVal) : RateCols :=
  ⟨pp, pt, own, rent, .num 0, .num 0, .num 0, .num 0, .num 0, .num 0, .num 0⟩

/-- Concrete tract layer in WGS84, for the CRS claims (empty rows: the
claim is about the layers' reference systems, not their contents). -/
def ce3Tracts : TractsFrame Unit := ⟨"EPSG:4326", []⟩

/-- Concrete boundary layer in Web-Mercator, a different CRS. -/
def ce3Redev : RedevFrame Unit := ⟨"EPSG:3857", [("NAME", true)], []⟩

/-- Concrete single-tract layer for the label-invariant witness. -/
def w8Tracts : TractsFrame Nat := ⟨"EPSG:4326", [⟨"a", 0⟩]⟩

/-- Concrete single-boundary layer (name `"A"`) for the same witness. -/
def w8Redev : RedevFrame Nat :=
  ⟨"EPSG:4326", [("ORG_NAME", true)], [(fun _ => "A", 0)]⟩

/-- Concrete aggregated LODES table: one tract, every sector count `0`. -/
def w10Rows : List LodesAggRow := [⟨"a", "None", fun _ => 0⟩]

/-- Concrete long-form row with 30 jobs (a sub-threshold count:
`30 // 50 = 0` dots are targeted). -/
def w5Rows : List LongRow := [⟨"a", "None", "CNS05", 30, some "Manufacturing"⟩]

/-- Concrete long-form row with 50 jobs (one dot targeted). -/
def w6Rows : List LongRow := [⟨"a", "None", "CNS01", 50, some "Agriculture_Forestry_Fishing"⟩]

/-- The unit square with a containment test that accepts every point. -/
def geomAll : TGeom := ⟨0, 0, 1, 1, fun _ => true⟩

/-- The unit square with a containment test that rejects every point
(a degenerate/sliver geometry as far as the sampler can tell). -/
def geomNone : TGeom := ⟨0, 0, 1, 1, fun _ => false⟩

/-- A geometry lookup sending every tract to `geomAll`. -/
def geomOfAll : String → TGeom := fun _ => geomAll

/-- A constant unit-draw stream. -/
def halfStream : Nat → ℚ := fun _ => 1 / 2

/-- The dot the sampler produces for `w6Rows` under `geomOfAll` and
`halfStream`: the first attempted point, accepted immediately. -/
def w6Dot : Dot :=
  ⟨attemptPt geomAll halfStream 0 0, "a", "None", "CNS01", some "Agriculture_Forestry_Fishing"⟩

/-- Concrete two-year ACS input for the delta witness. -/
def w4Acs : List AcsDataRow := [⟨"a", 2020, [PVal.num 1]⟩, ⟨"a", 2021, [PVal.num 3]⟩]

/-- The 2020 panel row the pipeline builds from `w4Acs`. -/
def w4Row1 : PanelRow := ⟨"a", 2020, "A", [PVal.num 1]⟩

/-- The 2021 panel row the pipeline builds from `w4Acs`. -/
def w4Row2 : PanelRow := ⟨"a", 2021, "A", [PVal.num 3]⟩

theorem psum_foldl_eq (xs : List PVal) :
    ∀ q : ℚ, (∀ v ∈ xs, v ≠ PVal.pinf ∧ v ≠ PVal.ninf) →
      xs.foldl addSkipNaN (.num q) = .num (q + (xs.map qOfPVal).sum) := by
  induction xs with
  | nil => intro q _; simp
  | cons v xs ih =>
    intro q h
    have hv := h v (List.mem_cons_self v xs)
    have hrest : ∀ w ∈ xs, w ≠ PVal.pinf ∧ w ≠ PVal.ninf :=
      fun w hw => h w (List.mem_cons_of_mem v hw)
    cases v with
    | nan =>
      simp only [List.foldl_cons, List.map_cons, List.sum_cons]
      have hstep : addSkipNaN (PVal.num q) PVal.nan = PVal.num q := rfl
      rw [hstep, ih q hrest]
      simp [qOfPVal]
    | pinf => exact absurd rfl hv.1
    | ninf => exact absurd rfl hv.2
    | num a =>
      simp only [List.foldl_cons, List.map_cons, List.sum_cons]
      have hstep : addSkipNaN (PVal.num q) (PVal.num a) = PVal.num (q + a) := rfl
      rw [hstep, ih (q + a) hrest]
      have hq : q + a + (xs.map qOfPVal).sum = q + (qOfPVal (PVal.num a) + (xs.map qOfPVal).sum) := by
        simp [qOfPVal]; ring
      rw [hq]

theorem psum_eq_sum (xs : List PVal) (h : ∀ v ∈ xs, v ≠ PVal.pinf ∧ v ≠ PVal.ninf) :
    psum xs = PVal.num ((xs.map qOfPVal).sum) := by
  have := psum_foldl_eq xs 0 h
  simpa [psum] using this

/-- C2, counterexample: in `compute_age_bands` a missing input column is
skipped by the `skipna` sum, not propagated.  For the row whose
`male_under5` cell is missing and whose other under-18 cells are all `1`,
the under-18 band is `7`, not missing — refuting "if any one input column
of a band is missing then that band's value is missing". -/
theorem C2_counterexample_missing_input_summed_as_zero :
    PVal.nan ∈ under18_cols ageRowCE
    ∧ age_under18 ageRowCE = PVal.num 7
    ∧ age_under18 ageRowCE ≠ PVal.nan := by
  have h7 : age_under18 ageRowCE = PVal.num 7 := by
    norm_num [age_under18, under18_cols, ageRowCE, psum, addSkipNaN, PVal.add]
  refine ⟨by simp [under18_cols, ageRowCE], h7, ?_⟩
  rw [h7]
  decide

/-- C2 (amended): each of the three age bands is the `skipna` sum of its
fixed column list — missing inputs are treated as zero (an all-missing
band sums to `0`).  Stated for rows whose age cells are finite or
missing, which is every row `pd.to_numeric(errors="coerce")` produces. -/
theorem C2_age_bands_are_skipna_sums (r : AgeCols)
    (h1 : ∀ v ∈ under18_cols r, v ≠ PVal.pinf ∧ v ≠ PVal.ninf)
    (h2 : ∀ v ∈ age_18_64_cols r, v ≠ PVal.pinf ∧ v ≠ PVal.ninf)
    (h3 : ∀ v ∈ age_65_plus_cols r, v ≠ PVal.pinf ∧ v ≠ PVal.ninf) :
    age_under18 r = PVal.num (((under18_cols r).map qOfPVal).sum)
    ∧ age_18_64 r = PVal.num (((age_18_64_cols r).map qOfPVal).sum)
    ∧ age_65_plus r = PVal.num (((age_65_plus_cols r).map qOfPVal).sum) :=
  ⟨psum_eq_sum (under18_cols r) h1, psum_eq_sum (age_18_64_cols r) h2,
   psum_eq_sum (age_65_plus_cols r) h3⟩

/-- Witness for the amended C2 at the all-ones row. -/
theorem C2_witness :
    age_under18 (constAgeCols (PVal.num 1))
        = PVal.num (((under18_cols (constAgeCols (PVal.num 1))).map qOfPVal).sum)
    ∧ age_18_64 (constAgeCols (PVal.num 1))
        = PVal.num (((age_18_64_cols (constAgeCols (PVal.num 1))).map qOfPVal).sum)
    ∧ age_65_plus (constAgeCols (PVal.num 1))
        = PVal.num (((age_65_plus_cols (constAgeCols (PVal.num 1))).map qOfPVal).sum) :=
  C2_age_bands_are_skipna_sums (constAgeCols (PVal.num 1))
    (by decide) (by decide) (by decide)

/-- C9, counterexample: a zero denominator with a positive numerator
yields `+inf`, not the claimed `NaN` — `compute_rates` inherits IEEE
division, so "a zero or missing denominator yields a not-a-number rate"
fails for `poverty_pop = 1, poverty_total = 0`. -/
theorem C9_counterexample_zero_denominator_gives_inf :
    poverty_rate (rateRowOf (PVal.num 1) (PVal.num 0) (PVal.num 0) (PVal.num 0)) = PVal.pinf
    ∧ PVal.pinf ≠ PVal.nan :=
  ⟨by norm_num [poverty_rate, rateRowOf, PVal.div], by decide⟩

/-- C9 (amended): rate derivation is total (never raises — the embedding
is a total function); a missing denominator yields `NaN`; a zero
denominator yields `NaN` exactly when the numerator is zero or missing
and `+inf` when it is positive; and the tenure scenario holds:
`owner_occ = 40, renter_occ = 60` give `owner_rate = 2/5` and
`renter_rate = 3/5`. -/
theorem C9_rate_division_semantics (v w : PVal) (q : ℚ) (hq : 0 < q) :
    poverty_rate (rateRowOf v PVal.nan v w) = PVal.nan
    ∧ poverty_rate (rateRowOf PVal.nan (PVal.num 0) v w) = PVal.nan
    ∧ poverty_rate (rateRowOf (PVal.num 0) (PVal.num 0) v w) = PVal.nan
    ∧ poverty_rate (rateRowOf (PVal.num q) (PVal.num 0) v w) = PVal.pinf
    ∧ owner_rate (rateRowOf v w (PVal.num 40) (PVal.num 60)) = PVal.num (2/5)
    ∧ renter_rate (rateRowOf v w (PVal.num 40) (PVal.num 60)) = PVal.num (3/5) := by
  refine ⟨?_, rfl, by norm_num [poverty_rate, rateRowOf, PVal.div], ?_, ?_, ?_⟩
  · cases v <;> rfl
  · simp [poverty_rate, rateRowOf, PVal.div, hq.ne', not_lt.mpr hq.le]
  · norm_num [owner_rate, rateRowOf, PVal.add, PVal.div]
  · norm_num [renter_rate, rateRowOf, PVal.add, PVal.div]

/-- Witness for the amended C9 at `v = w = 0`, `q = 1`. -/
theorem C9_witness :
    poverty_rate (rateRowOf (PVal.num 0) PVal.nan (PVal.num 0) (PVal.num 0)) = PVal.nan
    ∧ poverty_rate (rateRowOf PVal.nan (PVal.num 0) (PVal.num 0) (PVal.num 0)) = PVal.nan
    ∧ poverty_rate (rateRowOf (PVal.num 0) (PVal.num 0) (PVal.num 0) (PVal.num 0)) = PVal.nan
    ∧ poverty_rate (rateRowOf (PVal.num 1) (PVal.num 0) (PVal.num 0) (PVal.num 0)) = PVal.pinf
    ∧ owner_rate (rateRowOf (PVal.num 0) (PVal.num 0) (PVal.num 40) (PVal.num 60)) = PVal.num (2/5)
    ∧ renter_rate (rateRowOf (PVal.num 0) (PVal.num 0) (PVal.num 40) (PVal.num 60)) = PVal.num (3/5) :=
  C9_rate_division_semantics (PVal.num 0) (PVal.num 0) 1 (by decide)

/-- C3, counterexample: `add_redev_to_tracts` never reprojects — the
boundary layer reaches the spatial join still carrying its input CRS, so
for a Web-Mercator boundary file and a WGS84 tract file the two layers do
not agree on a single reference system at join time. -/
theorem C3_counterexample_no_reprojection :
    (redevAtJoin ce3Redev).crs = "EPSG:3857"
    ∧ ce3Tracts.crs = "EPSG:4326"
    ∧ (redevAtJoin ce3Redev).crs ≠ ce3Tracts.crs :=
  ⟨rfl, rfl, by decide⟩

/-- C3 (amended): the Spatial Attributor leaves the boundary layer's CRS
untouched (no `to_crs` call), so the layers agree at join time exactly
when the inputs already share a CRS — which the (out-of-core) download
stage arranges by writing both files in EPSG:4326. -/
theorem C3_join_crs_is_input_crs {G : Type} (tracts : TractsFrame G) (redev : RedevFrame G)
    (h : redev.crs = tracts.crs) :
    (redevAtJoin redev).crs = redev.crs ∧ (redevAtJoin redev).crs = tracts.crs :=
  ⟨rfl, h⟩

/-- Witness for the amended C3 at two concrete layers sharing EPSG:4326. -/
theorem C3_witness :
    (redevAtJoin w8Redev).crs = w8Redev.crs ∧ (redevAtJoin w8Redev).crs = w8Tracts.crs :=
  C3_join_crs_is_input_crs w8Tracts w8Redev rfl

/-- C7: the dot-synthesis pass is a deterministic function of its input
alone.  `random.seed(42)` discards whatever global generator state was in
effect, so two runs on identical inputs — whatever stream/position each
inherits — produce the identical ordered dot list. -/
theorem C7_dot_pass_deterministic (geomOf : String → TGeom) (rows : List LongRow)
    (g1 g2 : Nat → ℚ) (p1 p2 : Nat) :
    run_dot_pass geomOf rows g1 p1 = run_dot_pass geomOf rows g2 p2 := rfl

theorem rowDots_length (geom : TGeom) (g : Nat → ℚ) :
    ∀ k s, ((rowDots geom g s k).1).length ≤ k := by
  intro k
  induction k with
  | zero => intro s; simp [rowDots]
  | succ k ih =>
    intro s
    rw [rowDots]
    rcases hal : attemptLoop geom g s 20 with ⟨op, s2⟩
    cases op with
    | some p =>
      simpa using Nat.succ_le_succ (ih s2)
    | none =>
      exact le_trans (ih s2) (Nat.le_succ k)

theorem attemptLoop_some_contains (geom : TGeom) (g : Nat → ℚ) :
    ∀ n s p s2, attemptLoop geom g s n = (some p, s2) → geom.contains p = true := by
  intro n
  induction n with
  | zero => intro s p s2 h; simp [attemptLoop] at h
  | succ n ih =>
    intro s p s2 h
    rw [attemptLoop] at h
    by_cases hc : geom.contains
        (uniformQ geom.minx geom.maxx (g s), uniformQ geom.miny geom.maxy (g (s + 1))) = true
    · rw [if_pos hc] at h
      obtain ⟨h1, _⟩ := Prod.mk.injEq .. ▸ h
      cases h
      exact hc
    · rw [if_neg hc] at h
      exact ih (s + 2) p s2 h

theorem rowDots_mem_contains (geom : TGeom) (g : Nat → ℚ) :
    ∀ k s p, p ∈ (rowDots geom g s k).1 → geom.contains p = true := by
  intro k
  induction k with
  | zero => intro s p h; simp [rowDots] at h
  | succ k ih =>
    intro s p h
    rw [rowDots] at h
    rcases hal : attemptLoop geom g s 20 with ⟨op, s2⟩
    rw [hal] at h
    cases op with
    | some q =>
      simp only [List.mem_cons] at h
      rcases h with h | h
      · subst h
        exact attemptLoop_some_contains geom g 20 s p s2 hal
      · exact ih s2 p h
    | none => exact ih s2 p h

theorem synthPerRow_mem_contains (geomOf : String → TGeom) (g : Nat → ℚ) :
    ∀ rows s r pts, (r, pts) ∈ synthPerRow geomOf g rows s →
      ∀ p ∈ pts, (geomOf r.geoid).contains p = true := by
  intro rows
  induction rows with
  | nil => intro s r pts h; simp [synthPerRow] at h
  | cons r0 rest ih =>
    intro s r pts h p hp
    rw [synthPerRow] at h
    by_cases h0 : r0.jobs ≤ 0
    · rw [if_pos h0] at h
      rcases List.mem_cons.mp h with heq | htail
      · obtain ⟨hr, hpts⟩ := Prod.mk.injEq .. ▸ heq
        subst hr
        subst hpts
        simp at hp
      · exact ih s r pts htail p hp
    · rw [if_neg h0] at h
      rcases List.mem_cons.mp h with heq | htail
      · obtain ⟨hr, hpts⟩ := Prod.mk.injEq .. ▸ heq
        subst hr
        subst hpts
        exact rowDots_mem_contains (geomOf r.geoid) g (dotTarget r.jobs) s p hp
      · exact ih _ r pts htail p hp

/-- C5: for every `(tract, sector)` row the sampler processes, the target
dot count is `min(jobs // 50, 250)`, the dots actually produced never
exceed that target (hence never exceed 250), and rows with `jobs <= 0` or
`jobs // 50 = 0` produce no dots. -/
theorem C5_dot_count_capped (geomOf : String → TGeom) (g : Nat → ℚ)
    (rows : List LongRow) (s : Nat) (r : LongRow) (pts : List (ℚ × ℚ))
    (hm : (r, pts) ∈ synthPerRow geomOf g rows s) :
    dotTarget r.jobs = min (r.jobs.toNat / 50) 250
    ∧ pts.length ≤ dotTarget r.jobs
    ∧ pts.length ≤ 250
    ∧ (r.jobs ≤ 0 → pts = [])
    ∧ (r.jobs.toNat / 50 = 0 → pts = []) := by
  induction rows generalizing s with
  | nil => simp [synthPerRow] at hm
  | cons r0 rest ih =>
    rw [synthPerRow] at hm
    by_cases h0 : r0.jobs ≤ 0
    · rw [if_pos h0] at hm
      rcases List.mem_cons.mp hm with heq | htail
      · obtain ⟨hr, hpts⟩ := Prod.mk.injEq .. ▸ heq
        subst hr
        subst hpts
        exact ⟨rfl, Nat.zero_le _, Nat.zero_le _, fun _ => rfl, fun _ => rfl⟩
      · exact ih _ htail
    · rw [if_neg h0] at hm
      rcases List.mem_cons.mp hm with heq | htail
      · obtain ⟨hr, hpts⟩ := Prod.mk.injEq .. ▸ heq
        subst hr
        subst hpts
        have hlen := rowDots_length (geomOf r.geoid) g (dotTarget r.jobs) s
        refine ⟨rfl, hlen, le_trans hlen (Nat.min_le_right _ _), fun hc => absurd hc h0, ?_⟩
        intro hz
        have ht : dotTarget r.jobs = 0 := by simp [dotTarget, hz]
        rw [ht]
        simp [rowDots]
      · exact ih _ htail

/-- Witness for C5 at a concrete row with 30 jobs: `30 // 50 = 0` dots
are targeted and none are produced. -/
theorem C5_witness :
    dotTarget (30 : Int) = min ((30 : Int).toNat / 50) 250
    ∧ (List.length ([] : List (ℚ × ℚ))) ≤ dotTarget (30 : Int)
    ∧ (List.length ([] : List (ℚ × ℚ))) ≤ 250
    ∧ ((30 : Int) ≤ 0 → ([] : List (ℚ × ℚ)) = [])
    ∧ ((30 : Int).toNat / 50 = 0 → ([] : List (ℚ × ℚ)) = []) :=
  C5_dot_count_capped geomOfAll halfStream w5Rows 0
    ⟨"a", "None", "CNS05", 30, some "Manufacturing"⟩ [] (by decide)

theorem attemptPt_shift (geom : TGeom) (g : Nat → ℚ) (s i : Nat) :
    attemptPt geom g (s + 2) i = attemptPt geom g s (i + 1) := by
  have h1 : s + 2 + 2 * i = s + 2 * (i + 1) := by omega
  have h2 : s + 2 + 2 * i + 1 = s + 2 * (i + 1) + 1 := by omega
  simp only [attemptPt, h1, h2]

theorem attemptPt_zero (geom : TGeom) (g : Nat → ℚ) (s : Nat) :
    attemptPt geom g s 0
      = (uniformQ geom.minx geom.maxx (g s), uniformQ geom.miny geom.maxy (g (s + 1))) := by
  simp only [attemptPt, Nat.mul_zero, Nat.add_zero]

theorem attemptLoop_all_fail (geom : TGeom) (g : Nat → ℚ) :
    ∀ n s, (∀ i, i < n → geom.contains (attemptPt geom g s i) = false) →
      attemptLoop geom g s n = (none, s + 2 * n) := by
  intro n
  induction n with
  | zero => intro s _; simp [attemptLoop]
  | succ n ih =>
    intro s h
    have h0 : geom.contains
        (uniformQ geom.minx geom.maxx (g s), uniformQ geom.miny geom.maxy (g (s + 1))) = false := by
      have := h 0 (Nat.succ_pos n)
      rwa [attemptPt_zero] at this
    rw [attemptLoop, h0]
    simp only [Bool.false_eq_true, if_false]
    have hrec := ih (s + 2) (fun i hi => by
      rw [attemptPt_shift]
      exact h (i + 1) (Nat.succ_lt_succ hi))
    rw [hrec]
    have : s + 2 + 2 * n = s + 2 * (n + 1) := by omega
    rw [this]

theorem attemptLoop_first_accept (geom : TGeom) (g : Nat → ℚ) :
    ∀ n s i0, i0 < n →
      (∀ j, j < i0 → geom.contains (attemptPt geom g s j) = false) →
      geom.contains (attemptPt geom g s i0) = true →
      attemptLoop geom g s n = (some (attemptPt geom g s i0), s + 2 * i0 + 2) := by
  intro n
  induction n with
  | zero => intro s i0 h; exact absurd h (Nat.not_lt_zero i0)
  | succ n ih =>
    intro s i0 hlt hbefore hacc
    cases i0 with
    | zero =>
      rw [attemptPt_zero] at hacc
      rw [attemptLoop, hacc]
      simp only [if_true]
      rw [attemptPt_zero]
    | succ j =>
      have h0 : geom.contains
          (uniformQ geom.minx geom.maxx (g s), uniformQ geom.miny geom.maxy (g (s + 1))) = false := by
        have := hbefore 0 (Nat.succ_pos j)
        rwa [attemptPt_zero] at this
      rw [attemptLoop, h0]
      simp only [Bool.false_eq_true, if_false]
      have hrec := ih (s + 2) j (Nat.lt_of_succ_lt_succ hlt)
        (fun i hi => by
          rw [attemptPt_shift]
          exact hbefore (i + 1) (Nat.succ_lt_succ hi))
        (by rw [attemptPt_shift]; exact hacc)
      rw [hrec, attemptPt_shift]
      have : s + 2 + 2 * j + 2 = s + 2 * (j + 1) + 2 := by omega
      rw [this]

/-- C6: every synthesized dot lies strictly inside its owning tract's
polygon (the `contains` parameter stands for shapely's strict
`Polygon.contains`, which excludes boundary points); and each dot's
placement consumes at most 20 draws from the bounding rectangle: if all
20 attempted points fall outside, the placement returns nothing after
exactly 20 draws (the dot is silently skipped), and the first attempted
point inside the polygon is the one accepted. -/
theorem C6_dots_inside_with_bounded_attempts (geomOf : String → TGeom) (g : Nat → ℚ)
    (rows : List LongRow) (s : Nat) :
    (∀ d ∈ dotSynthesis geomOf g rows s, (geomOf d.geoid).contains d.point = true)
    ∧ (∀ geom s0, (∀ i, i < 20 → geom.contains (attemptPt geom g s0 i) = false) →
        attemptLoop geom g s0 20 = (none, s0 + 2 * 20))
    ∧ (∀ geom s0 i0, i0 < 20 →
        (∀ j, j < i0 → geom.contains (attemptPt geom g s0 j) = false) →
        geom.contains (attemptPt geom g s0 i0) = true →
        attemptLoop geom g s0 20 = (some (attemptPt geom g s0 i0), s0 + 2 * i0 + 2)) := by
  refine ⟨?_, fun geom s0 h => attemptLoop_all_fail geom g 20 s0 h,
    fun geom s0 i0 h1 h2 h3 => attemptLoop_first_accept geom g 20 s0 i0 h1 h2 h3⟩
  intro d hd
  simp only [dotSynthesis, List.mem_flatMap] at hd
  obtain ⟨e, he, hde⟩ := hd
  simp only [List.mem_map] at hde
  obtain ⟨p, hp, hpd⟩ := hde
  have hc := synthPerRow_mem_contains geomOf g rows s e.1 e.2 (by
    rcases e with ⟨er, epts⟩
    exact he) p hp
  rw [← hpd]
  exact hc

/-- Witness for C6: the dot produced for the 50-job row lies inside its
tract geometry; with an all-rejecting geometry the 20 attempts are
consumed and nothing is returned; with an all-accepting geometry the
first attempted point is accepted after one draw pair. -/
theorem C6_witness :
    (geomOfAll w6Dot.geoid).contains w6Dot.point = true
    ∧ attemptLoop geomNone halfStream 0 20 = (none, 0 + 2 * 20)
    ∧ attemptLoop geomAll halfStream 0 20
        = (some (attemptPt geomAll halfStream 0 0), 0 + 2 * 0 + 2) :=
  ⟨(C6_dots_inside_with_bounded_attempts geomOfAll halfStream w6Rows 0).1 w6Dot
      (List.mem_singleton_self w6Dot),
   (C6_dots_inside_with_bounded_attempts geomOfAll halfStream w6Rows 0).2.1 geomNone 0
      (fun _ _ => rfl),
   (C6_dots_inside_with_bounded_attempts geomOfAll halfStream w6Rows 0).2.2 geomAll 0 0
      (by decide) (fun j hj => absurd hj (Nat.not_lt_zero j)) rfl⟩

/-- C8: the spatial attribution retains every input tract (left join),
and every emitted label is either a value of the boundary file's resolved
name column or exactly the string `"None"`; no label is missing. -/
theorem C8_every_tract_labelled_from_name_column_or_none {G : Type}
    (intersects : G → G → Bool) (tracts : TractsFrame G) (redev : RedevFrame G) :
    (∀ t ∈ tracts.rows, ∃ lbl, (t, lbl) ∈ add_redev_to_tracts intersects tracts redev)
    ∧ (∀ t lbl, (t, lbl) ∈ add_redev_to_tracts intersects tracts redev →
        lbl ∈ redev_name_values redev ∨ lbl = "None") := by
  constructor
  · intro t ht
    rcases hf : (redevAtJoin redev).rows.filter (fun r => intersects t.geometry r.2)
      with _ | ⟨m, ms⟩
    · refine ⟨"None", ?_⟩
      simp only [add_redev_to_tracts, List.mem_map]
      refine ⟨(t, none), ?_, rfl⟩
      simp only [sjoin_left, List.mem_flatMap]
      exact ⟨t, ht, by rw [hf]; exact List.mem_singleton_self _⟩
    · refine ⟨m.1, ?_⟩
      simp only [add_redev_to_tracts, List.mem_map]
      refine ⟨(t, some m.1), ?_, rfl⟩
      simp only [sjoin_left, List.mem_flatMap]
      refine ⟨t, ht, ?_⟩
      rw [hf]
      exact List.mem_map_of_mem (fun r => (t, some r.1)) (List.mem_cons_self m ms)
  · intro t lbl h
    simp only [add_redev_to_tracts, List.mem_map] at h
    obtain ⟨e, he, hfe⟩ := h
    simp only [sjoin_left, List.mem_flatMap] at he
    obtain ⟨t2, _, hblock⟩ := he
    rcases hf : (redevAtJoin redev).rows.filter (fun r => intersects t2.geometry r.2)
      with _ | ⟨m, ms⟩
    · rw [hf] at hblock
      simp only [List.mem_singleton] at hblock
      subst hblock
      right
      exact (Prod.mk.injEq .. ▸ hfe).2.symm
    · rw [hf] at hblock
      simp only [List.mem_map] at hblock
      obtain ⟨rj, hrj, hrje⟩ := hblock
      subst hrje
      left
      have hlbl : lbl = rj.1 := (Prod.mk.injEq .. ▸ hfe).2.symm
      have hrj2 : rj ∈ (redevAtJoin redev).rows := by
        have : rj ∈ (redevAtJoin redev).rows.filter (fun r => intersects t2.geometry r.2) := by
          rw [hf]; exact hrj
        exact List.mem_of_mem_filter this
      simp only [redevAtJoin, List.mem_map] at hrj2
      obtain ⟨src, hsrc, hsrce⟩ := hrj2
      rw [hlbl, ← hsrce]
      exact List.mem_map_of_mem (fun e => e.1 (pick_name_column redev.cols)) hsrc

/-- Witness for C8 at one tract and one boundary named `"A"`. -/
theorem C8_witness :
    (∃ lbl, ((⟨"a", 0⟩ : TractRow Nat), lbl) ∈ add_redev_to_tracts allIntersect w8Tracts w8Redev)
    ∧ ("A" ∈ redev_name_values w8Redev ∨ "A" = "None") :=
  ⟨(C8_every_tract_labelled_from_name_column_or_none allIntersect w8Tracts w8Redev).1
      ⟨"a", 0⟩ (by decide),
   (C8_every_tract_labelled_from_name_column_or_none allIntersect w8Tracts w8Redev).2
      ⟨"a", 0⟩ "A" (by decide)⟩

theorem filter_flatMap_comm {A B : Type} (l : List A) (f : A → List B) (p : B → Bool) :
    (l.flatMap f).filter p = l.flatMap (fun a => (f a).filter p) := by
  induction l with
  | nil => rfl
  | cons a l ih =>
    rw [List.flatMap_cons, List.flatMap_cons, List.filter_append, ih]

theorem filter_map_comm {A B : Type} (l : List A) (f : A → B) (p : B → Bool) :
    (l.map f).filter p = (l.filter (fun a => p (f a))).map f := by
  induction l with
  | nil => rfl
  | cons a l ih =>
    simp only [List.map_cons, List.filter_cons]
    cases hp : p (f a) <;> simp [hp, ih]

theorem flatMap_singleton_eq_map {A B : Type} (l : List A) (f : A → B) :
    l.flatMap (fun a => [f a]) = l.map f := by
  induction l with
  | nil => rfl
  | cons a l ih => rw [List.flatMap_cons, List.map_cons, ih]; rfl

theorem filter_geoid_unique (rows : List LodesAggRow) (r : LodesAggRow) :
    (rows.map (fun x => x.geoid)).Nodup → r ∈ rows →
      rows.filter (fun x => x.geoid == r.geoid) = [r] := by
  induction rows with
  | nil => intro _ h; simp at h
  | cons a rest ih =>
    intro hnd hr
    rw [List.map_cons, List.nodup_cons] at hnd
    rcases List.mem_cons.mp hr with heq | hmem
    · subst heq
      rw [List.filter_cons]
      simp only [beq_self_eq_true, if_true]
      have hnil : rest.filter (fun x => x.geoid == r.geoid) = [] := by
        rw [List.filter_eq_nil_iff]
        intro x hx hbx
        exact hnd.1 (List.mem_map.mpr ⟨x, hx, (beq_iff_eq.mp hbx)⟩)
      rw [hnil]
    · rw [List.filter_cons]
      have hne : (a.geoid == r.geoid) = false := by
        rw [beq_eq_false_iff_ne]
        intro hcontra
        exact hnd.1 (List.mem_map.mpr ⟨r, hmem, hcontra.symm⟩)
      rw [hne]
      simp only [Bool.false_eq_true, if_false]
      exact ih hnd.2 hmem

theorem melt_filter_geoid (rows : List LodesAggRow) (r : LodesAggRow)
    (hnd : (rows.map (fun x => x.geoid)).Nodup) (hr : r ∈ rows) :
    (meltLodes rows).filter (fun d => d.geoid == r.geoid)
      = sector_cols.map (fun s => meltRow s r) := by
  rw [meltLodes, filter_flatMap_comm]
  have hinner : ∀ s, ((rows.map (meltRow s)).filter (fun d => d.geoid == r.geoid))
      = [meltRow s r] := by
    intro s
    rw [filter_map_comm]
    have hpred : (fun a => (meltRow s a).geoid == r.geoid) = (fun a => a.geoid == r.geoid) :=
      funext (fun a => rfl)
    rw [hpred, filter_geoid_unique rows r hnd hr]
    rfl
  calc sector_cols.flatMap (fun s => (rows.map (meltRow s)).filter (fun d => d.geoid == r.geoid))
      = sector_cols.flatMap (fun s => [meltRow s r]) := by
        exact congrArg _ (funext hinner)
    _ = sector_cols.map (fun s => meltRow s r) := flatMap_singleton_eq_map _ _

/-- The fold step of `argmaxFirst` (named for the proofs below). -/
theorem argmaxFirst_foldl_all_le (l : List LongRow) :
    ∀ m : LongRow, (∀ x ∈ l, x.jobs ≤ m.jobs) →
      l.foldl (fun acc r =>
        match acc with
        | none => some r
        | some a => if a.jobs < r.jobs then some r else acc) (some m) = some m := by
  induction l with
  | nil => intro m _; rfl
  | cons x l ih =>
    intro m h
    rw [List.foldl_cons]
    have hx : ¬ m.jobs < x.jobs := not_lt.mpr (h x (List.mem_cons_self x l))
    simp only [if_neg hx]
    exact ih m (fun y hy => h y (List.mem_cons_of_mem x hy))

theorem argmaxFirst_all_le (a : LongRow) (l : List LongRow)
    (h : ∀ x ∈ l, x.jobs ≤ a.jobs) : argmaxFirst (a :: l) = some a := by
  rw [argmaxFirst, List.foldl_cons]
  exact argmaxFirst_foldl_all_le l a h

theorem argmaxFirst_foldl_mem (l : List LongRow) :
    ∀ a m : LongRow, l.foldl (fun acc r =>
        match acc with
        | none => some r
        | some x => if x.jobs < r.jobs then some r else acc) (some a) = some m →
      m = a ∨ m ∈ l := by
  induction l with
  | nil =>
    intro a m h
    exact Or.inl (Option.some.injEq .. ▸ h).symm
  | cons x l ih =>
    intro a m h
    rw [List.foldl_cons] at h
    have hred : (match some a with
        | none => some x
        | some y => if y.jobs < x.jobs then some x else some a)
        = if a.jobs < x.jobs then some x else some a := rfl
    rw [hred] at h
    by_cases hx : a.jobs < x.jobs
    · rw [if_pos hx] at h
      rcases ih x m h with h1 | h2
      · exact Or.inr (h1 ▸ List.mem_cons_self x l)
      · exact Or.inr (List.mem_cons_of_mem x h2)
    · rw [if_neg hx] at h
      rcases ih a m h with h1 | h2
      · exact Or.inl h1
      · exact Or.inr (List.mem_cons_of_mem x h2)

theorem argmaxFirst_mem (l : List LongRow) (m : LongRow) (h : argmaxFirst l = some m) :
    m ∈ l := by
  cases l with
  | nil => simp [argmaxFirst] at h
  | cons a l =>
    rw [argmaxFirst, List.foldl_cons] at h
    rcases argmaxFirst_foldl_mem l a m h with h1 | h2
    · exact h1 ▸ List.mem_cons_self a l
    · exact List.mem_cons_of_mem a h2

theorem argmaxFirst_foldl_isSome (l : List LongRow) :
    ∀ a : LongRow, ∃ m, l.foldl (fun acc r =>
        match acc with
        | none => some r
        | some x => if x.jobs < r.jobs then some r else acc) (some a) = some m := by
  induction l with
  | nil => intro a; exact ⟨a, rfl⟩
  | cons x l ih =>
    intro a
    rw [List.foldl_cons]
    have hred : (match some a with
        | none => some x
        | some y => if y.jobs < x.jobs then some x else some a)
        = if a.jobs < x.jobs then some x else some a := rfl
    rw [hred]
    by_cases hx : a.jobs < x.jobs
    · rw [if_pos hx]; exact ih x
    · rw [if_neg hx]; exact ih a

theorem argmaxFirst_of_ne_nil (l : List LongRow) (h : l ≠ []) :
    ∃ m, argmaxFirst l = some m := by
  cases l with
  | nil => exact absurd rfl h
  | cons a l =>
    rw [argmaxFirst, List.foldl_cons]
    exact argmaxFirst_foldl_isSome l a

theorem mem_firstOccAux (x : String) :
    ∀ (l seen : List String), x ∈ firstOccAux seen l ↔ x ∈ l ∧ x ∉ seen := by
  intro l
  induction l with
  | nil => intro seen; simp [firstOccAux]
  | cons a l ih =>
    intro seen
    rw [firstOccAux]
    by_cases ha : a ∈ seen
    · rw [if_pos ha, ih seen]
      constructor
      · rintro ⟨h1, h2⟩
        exact ⟨List.mem_cons_of_mem a h1, h2⟩
      · rintro ⟨h1, h2⟩
        rcases List.mem_cons.mp h1 with heq | hmem
        · exact absurd (heq ▸ ha) h2
        · exact ⟨hmem, h2⟩
    · rw [if_neg ha]
      constructor
      · intro h
        rcases List.mem_cons.mp h with heq | hmem
        · exact ⟨heq ▸ List.mem_cons_self a l, heq ▸ ha⟩
        · have := (ih (a :: seen)).mp hmem
          exact ⟨List.mem_cons_of_mem a this.1,
            fun hc => this.2 (List.mem_cons_of_mem a hc)⟩
      · rintro ⟨h1, h2⟩
        rcases List.mem_cons.mp h1 with heq | hmem
        · exact heq ▸ List.mem_cons_self a _
        · by_cases hxa : x = a
          · exact hxa ▸ List.mem_cons_self a _
          · exact List.mem_cons_of_mem a ((ih (a :: seen)).mpr
              ⟨hmem, fun hc => (List.mem_cons.mp hc).elim hxa h2⟩)

theorem mem_firstOcc (x : String) (l : List String) : x ∈ firstOcc l ↔ x ∈ l := by
  rw [firstOcc, mem_firstOccAux]
  simp

theorem nodup_firstOccAux : ∀ (l seen : List String), (firstOccAux seen l).Nodup := by
  intro l
  induction l with
  | nil => intro seen; exact List.nodup_nil
  | cons a l ih =>
    intro seen
    rw [firstOccAux]
    by_cases ha : a ∈ seen
    · rw [if_pos ha]; exact ih seen
    · rw [if_neg ha]
      rw [List.nodup_cons]
      refine ⟨?_, ih (a :: seen)⟩
      intro hc
      exact ((mem_firstOccAux a l (a :: seen)).mp hc).2 (List.mem_cons_self a seen)

theorem nodup_firstOcc (l : List String) : (firstOcc l).Nodup := nodup_firstOccAux l []

theorem filterMap_filter_not_mem (f : String → Option LongRow)
    (hf : ∀ g m, f g = some m → m.geoid = g) :
    ∀ (keys : List String) (g : String), g ∉ keys →
      (keys.filterMap f).filter (fun d => d.geoid == g) = [] := by
  intro keys
  induction keys with
  | nil => intro g _; rfl
  | cons k keys ih =>
    intro g hg
    have hgk : g ≠ k := fun hc => hg (hc ▸ List.mem_cons_self k keys)
    have hgr : g ∉ keys := fun hc => hg (List.mem_cons_of_mem k hc)
    rw [List.filterMap_cons]
    cases hk : f k with
    | none => exact ih g hgr
    | some m =>
      rw [List.filter_cons]
      have hne : (m.geoid == g) = false := by
        rw [beq_eq_false_iff_ne, hf k m hk]
        exact fun hc => hgk hc.symm
      rw [hne]
      simp only [Bool.false_eq_true, if_false]
      exact ih g hgr

theorem filterMap_filter_mem (f : String → Option LongRow)
    (hf : ∀ g m, f g = some m → m.geoid = g) :
    ∀ (keys : List String), keys.Nodup → ∀ g m, g ∈ keys → f g = some m →
      (keys.filterMap f).filter (fun d => d.geoid == g) = [m] := by
  intro keys
  induction keys with
  | nil => intro _ g m h; simp at h
  | cons k keys ih =>
    intro hnd g m hg hfg
    rw [List.nodup_cons] at hnd
    rw [List.filterMap_cons]
    rcases List.mem_cons.mp hg with heq | hmem
    · subst heq
      rw [hfg, List.filter_cons]
      have ht : (m.geoid == g) = true := beq_iff_eq.mpr (hf g m hfg)
      rw [ht]
      simp only [if_true]
      rw [filterMap_filter_not_mem f hf keys g hnd.1]
    · have hgk : g ≠ k := fun hc => hnd.1 (hc ▸ hmem)
      cases hk : f k with
      | none => exact ih hnd.2 g m hmem hfg
      | some mk =>
        rw [List.filter_cons]
        have hne : (mk.geoid == g) = false := by
          rw [beq_eq_false_iff_ne, hf k mk hk]
          exact fun hc => hgk hc.symm
        rw [hne]
        simp only [Bool.false_eq_true, if_false]
        exact ih hnd.2 g m hmem hfg

/-- C10: the Dominant-Sector Selector emits exactly one row per tract
identifier present in the long table; and for a tract whose 20 sector
counts are all zero (a 20-way tie), the selected row is the `CNS01`
(`Agriculture_Forestry_Fishing`) row with 0 jobs — the melt lists each
tract's sectors in `CNS01..CNS20` order and `idxmax` keeps the first row
attaining the maximum. -/
theorem C10_dominant_selector_first_of_ties (rows : List LodesAggRow)
    (hnd : (rows.map (fun x => x.geoid)).Nodup)
    (r : LodesAggRow) (hr : r ∈ rows)
    (hz : ∀ s ∈ sector_cols, r.counts s = 0) :
    (dominantRows (meltLodes rows)).filter (fun d => d.geoid == r.geoid)
      = [⟨r.geoid, r.redev_name, "CNS01", 0, some "Agriculture_Forestry_Fishing"⟩]
    ∧ ∀ g, g ∈ (meltLodes rows).map (fun d => d.geoid) →
        (dominantRows (meltLodes rows)).countP (fun d => d.geoid == g) = 1 := by
  have hf : ∀ g m, argmaxFirst ((meltLodes rows).filter (fun d => d.geoid == g)) = some m →
      m.geoid = g := by
    intro g m hm
    have h1 : m ∈ (meltLodes rows).filter (fun d => d.geoid == g) := argmaxFirst_mem _ m hm
    have h2 := List.of_mem_filter h1
    exact beq_iff_eq.mp h2
  constructor
  · have hfilter := melt_filter_geoid rows r hnd hr
    have hshape : sector_cols.map (fun s => meltRow s r)
        = meltRow "CNS01" r :: (["CNS02", "CNS03", "CNS04", "CNS05", "CNS06", "CNS07",
            "CNS08", "CNS09", "CNS10", "CNS11", "CNS12", "CNS13", "CNS14",
            "CNS15", "CNS16", "CNS17", "CNS18", "CNS19", "CNS20"].map
              (fun s => meltRow s r)) := rfl
    have hmax : argmaxFirst ((meltLodes rows).filter (fun d => d.geoid == r.geoid))
        = some (meltRow "CNS01" r) := by
      rw [hfilter, hshape]
      apply argmaxFirst_all_le
      intro x hx
      rcases List.mem_map.mp hx with ⟨s, hs, hsx⟩
      have hsx2 : x.jobs = r.counts s := by rw [← hsx]; rfl
      have h01 : (meltRow "CNS01" r).jobs = r.counts "CNS01" := rfl
      have hxz : x.jobs = 0 := by
        rw [hsx2]
        exact hz s (List.mem_cons_of_mem "CNS01" hs)
      have h01z : (meltRow "CNS01" r).jobs = 0 := by
        rw [h01]
        exact hz "CNS01" (by simp [sector_cols])
      rw [hxz, h01z]
    have hmem : r.geoid ∈ firstOcc ((meltLodes rows).map (fun d => d.geoid)) := by
      rw [mem_firstOcc]
      refine List.mem_map.mpr ⟨meltRow "CNS01" r, ?_, rfl⟩
      rw [meltLodes]
      refine List.mem_flatMap.mpr ⟨"CNS01", by simp [sector_cols], ?_⟩
      exact List.mem_map_of_mem (meltRow "CNS01") hr
    have hres := filterMap_filter_mem _ hf (firstOcc ((meltLodes rows).map (fun d => d.geoid)))
      (nodup_firstOcc _) r.geoid (meltRow "CNS01" r) hmem hmax
    rw [dominantRows, hres]
    have : meltRow "CNS01" r
        = ⟨r.geoid, r.redev_name, "CNS01", 0, some "Agriculture_Forestry_Fishing"⟩ := by
      rw [meltRow]
      have hc : r.counts "CNS01" = 0 := hz "CNS01" (by simp [sector_cols])
      rw [hc]
      rfl
    rw [this]
  · intro g hg
    have hgk : g ∈ firstOcc ((meltLodes rows).map (fun d => d.geoid)) :=
      (mem_firstOcc g _).mpr hg
    rcases List.mem_map.mp hg with ⟨d, hd, hdg⟩
    have hdf : d ∈ (meltLodes rows).filter (fun x => x.geoid == g) :=
      List.mem_filter.mpr ⟨hd, beq_iff_eq.mpr hdg⟩
    have hne : (meltLodes rows).filter (fun x => x.geoid == g) ≠ [] :=
      fun hc => by rw [hc] at hdf; simp at hdf
    obtain ⟨m, hm⟩ := argmaxFirst_of_ne_nil _ hne
    have hres := filterMap_filter_mem _ hf (firstOcc ((meltLodes rows).map (fun d => d.geoid)))
      (nodup_firstOcc _) g m hgk hm
    rw [dominantRows, List.countP_eq_length_filter, hres]
    rfl

/-- Witness for C10 at a single all-zero tract. -/
theorem C10_witness :
    (dominantRows (meltLodes w10Rows)).filter (fun d => d.geoid == "a")
      = [⟨"a", "None", "CNS01", 0, some "Agriculture_Forestry_Fishing"⟩]
    ∧ ∀ g, g ∈ (meltLodes w10Rows).map (fun d => d.geoid) →
        (dominantRows (meltLodes w10Rows)).countP (fun d => d.geoid == g) = 1 :=
  C10_dominant_selector_first_of_ties w10Rows (by decide)
    ⟨"a", "None", fun _ => 0⟩ (List.mem_singleton_self _) (fun _ _ => rfl)

theorem charListLtb_irrefl : ∀ l, charListLtb l l = false := by
  intro l
  induction l with
  | nil => rfl
  | cons a l ih =>
    rw [charListLtb]
    simp [lt_irrefl, ih]

theorem charListLtb_trans :
    ∀ a b c, charListLtb a b = true → charListLtb b c = true → charListLtb a c = true := by
  intro a
  induction a with
  | nil =>
    intro b c hab hbc
    cases b with
    | nil => simp [charListLtb] at hab
    | cons bh bt =>
      cases c with
      | nil => simp [charListLtb] at hbc
      | cons ch ct => rfl
  | cons ah a ih =>
    intro b c hab hbc
    cases b with
    | nil => simp [charListLtb] at hab
    | cons bh bt =>
      cases c with
      | nil => simp [charListLtb] at hbc
      | cons ch ct =>
        rw [charListLtb] at hab hbc ⊢
        by_cases h1 : ah < bh
        · by_cases h2 : bh < ch
          · rw [if_pos (lt_trans h1 h2)]
          · by_cases h3 : ch < bh
            · rw [if_neg h2, if_pos h3] at hbc
              exact absurd hbc (by simp)
            · have heq : bh = ch := le_antisymm (not_lt.mp h3) (not_lt.mp h2)
              rw [if_pos (heq ▸ h1)]
        · by_cases h1b : bh < ah
          · rw [if_neg h1, if_pos h1b] at hab
            exact absurd hab (by simp)
          · have heq1 : ah = bh := le_antisymm (not_lt.mp h1b) (not_lt.mp h1)
            rw [if_neg h1, if_neg h1b] at hab
            by_cases h2 : bh < ch
            · rw [if_pos (heq1 ▸ h2)]
            · by_cases h3 : ch < bh
              · rw [if_neg h2, if_pos h3] at hbc
                exact absurd hbc (by simp)
              · have heq2 : bh = ch := le_antisymm (not_lt.mp h3) (not_lt.mp h2)
                rw [if_neg h2, if_neg h3] at hbc
                have heq3 : ah = ch := heq1.trans heq2
                rw [if_neg (heq3 ▸ lt_irrefl ah), if_neg (heq3 ▸ lt_irrefl ah)]
                exact ih bt ct hab hbc

theorem charListLtb_eq_of_both_false :
    ∀ a b, charListLtb a b = false → charListLtb b a = false → a = b := by
  intro a
  induction a with
  | nil =>
    intro b hab _
    cases b with
    | nil => rfl
    | cons bh bt => simp [charListLtb] at hab
  | cons ah a ih =>
    intro b hab hba
    cases b with
    | nil => simp [charListLtb] at hba
    | cons bh bt =>
      rw [charListLtb] at hab hba
      by_cases h1 : ah < bh
      · rw [if_pos h1] at hab
        exact absurd hab (by simp)
      · by_cases h2 : bh < ah
        · rw [if_pos h2] at hba
          exact absurd hba (by simp)
        · have heq : ah = bh := le_antisymm (not_lt.mp h2) (not_lt.mp h1)
          rw [if_neg h1, if_neg h2] at hab
          rw [if_neg h2, if_neg h1] at hba
          rw [heq, ih bt hab hba]

theorem strLtb_irrefl (s : String) : strLtb s s = false := charListLtb_irrefl s.data

theorem strLtb_trans {a b c : String} (h1 : strLtb a b = true) (h2 : strLtb b c = true) :
    strLtb a c = true := charListLtb_trans a.data b.data c.data h1 h2

theorem eq_of_strLtb_false {a b : String} (h1 : strLtb a b = false) (h2 : strLtb b a = false) :
    a = b := by
  have h := charListLtb_eq_of_both_false a.data b.data h1 h2
  cases a
  cases b
  exact congrArg String.mk h

instance : IsTotal PanelRow panelLE := ⟨fun a b => by
  by_cases h1 : strLtb a.geoid b.geoid = true
  · exact Or.inl (Or.inl h1)
  · by_cases h2 : strLtb b.geoid a.geoid = true
    · exact Or.inr (Or.inl h2)
    · have heq : a.geoid = b.geoid :=
        eq_of_strLtb_false (by simpa using h1) (by simpa using h2)
      rcases Int.le_total a.year b.year with h | h
      · exact Or.inl (Or.inr ⟨heq, h⟩)
      · exact Or.inr (Or.inr ⟨heq.symm, h⟩)⟩

instance : IsTrans PanelRow panelLE := ⟨fun a b c hab hbc => by
  rcases hab with h1 | ⟨e1, y1⟩
  · rcases hbc with h2 | ⟨e2, _⟩
    · exact Or.inl (strLtb_trans h1 h2)
    · exact Or.inl (by rw [← e2]; exact h1)
  · rcases hbc with h2 | ⟨e2, y2⟩
    · exact Or.inl (by rw [e1]; exact h2)
    · exact Or.inr ⟨e1.trans e2, le_trans y1 y2⟩⟩

theorem sortPanel_sorted (rows : List PanelRow) : List.Sorted panelLE (sortPanel rows) :=
  List.sorted_insertionSort panelLE rows

theorem sortPanel_perm (rows : List PanelRow) : (sortPanel rows).Perm rows :=
  List.perm_insertionSort panelLE rows

theorem diffByGroup_fst : ∀ (l : List PanelRow) (seen : List (String × List PVal)),
    (diffByGroup seen l).map Prod.fst = l := by
  intro l
  induction l with
  | nil => intro seen; rfl
  | cons r l ih =>
    intro seen
    rw [diffByGroup, List.map_cons, ih]

theorem diffByGroup_filter (g : String) :
    ∀ (l : List PanelRow) (seen : List (String × List PVal)),
      (diffByGroup seen l).filter (fun e => e.1.geoid == g)
        = diffWithin ((seen.find? (fun p => p.1 == g)).map (fun p => p.2))
            (l.filter (fun r => r.geoid == g)) := by
  intro l
  induction l with
  | nil => intro seen; rfl
  | cons r l ih =>
    intro seen
    rw [diffByGroup, List.filter_cons, List.filter_cons]
    by_cases hb : (r.geoid == g) = true
    · have hg : r.geoid = g := beq_iff_eq.mp hb
      simp only [hb, if_true]
      rw [hg, ih ((g, r.vals) :: seen)]
      have hfind : List.find? (fun p => p.1 == g) ((g, r.vals) :: seen) = some (g, r.vals) :=
        List.find?_cons_of_pos _ (by simp)
      rw [hfind]
      cases hseen : seen.find? (fun p => p.1 == g) with
      | none => rfl
      | some p => rfl
    · have hb2 : (r.geoid == g) = false := by simpa using hb
      simp only [hb2, Bool.false_eq_true, if_false]
      have hfind : ((r.geoid, r.vals) :: seen).find? (fun p => p.1 == g)
          = seen.find? (fun p => p.1 == g) := List.find?_cons_of_neg _ (by simpa using hb)
      rw [ih ((r.geoid, r.vals) :: seen), hfind]

/-- C4: after the `(geoid, year)` sort, the grouped diff computes every
tract's deltas from that tract's own rows only (first conjunct: the
panel restricted to any tract equals the within-group reference diff of
that tract's sorted rows, starting from the no-previous-row state); in
particular, for a tract with at least two observed years, the delta at
the first row is all-undefined, the delta at the second row is exactly
the value-wise difference from the first row, and the first row's year
is strictly smaller. -/
theorem C4_delta_is_first_difference_within_tract {G : Type} (intersects : G → G → Bool)
    (acs : List AcsDataRow) (tracts : TractsFrame G) (redev : RedevFrame G)
    (g : String) (r1 r2 : PanelRow) (rest : List PanelRow)
    (h : (sortPanel (mergeLabels acs (tractLabels intersects tracts redev))).filter
        (fun r => r.geoid == g) = r1 :: r2 :: rest)
    (hy : r1.year ≠ r2.year) :
    (∀ g2, (prepare_acs_panel intersects acs tracts redev).filter (fun e => e.1.geoid == g2)
        = diffWithin none
            ((sortPanel (mergeLabels acs (tractLabels intersects tracts redev))).filter
              (fun r => r.geoid == g2)))
    ∧ (prepare_acs_panel intersects acs tracts redev).filter (fun e => e.1.geoid == g)
        = (r1, r1.vals.map (fun _ => PVal.nan))
          :: (r2, (r2.vals.zip r1.vals).map (fun q => q.1.sub q.2))
          :: diffWithin (some r2.vals) rest
    ∧ r1.year < r2.year := by
  have hpart1 : ∀ g2,
      (prepare_acs_panel intersects acs tracts redev).filter (fun e => e.1.geoid == g2)
        = diffWithin none
            ((sortPanel (mergeLabels acs (tractLabels intersects tracts redev))).filter
              (fun r => r.geoid == g2)) := by
    intro g2
    rw [prepare_acs_panel, diffByGroup_filter g2]
    rfl
  refine ⟨hpart1, ?_, ?_⟩
  · rw [hpart1 g, h]
    rfl
  · have hsorted := sortPanel_sorted (mergeLabels acs (tractLabels intersects tracts redev))
    have hpair : (r1 :: r2 :: rest).Pairwise panelLE := by
      rw [← h]
      exact hsorted.filter (fun r => r.geoid == g)
    have hle : panelLE r1 r2 := by
      rw [List.pairwise_cons] at hpair
      exact hpair.1 r2 (List.mem_cons_self r2 rest)
    have hm1 : r1 ∈ (sortPanel (mergeLabels acs (tractLabels intersects tracts redev))).filter
        (fun r => r.geoid == g) := by
      rw [h]
      exact List.mem_cons_self r1 _
    have hm2 : r2 ∈ (sortPanel (mergeLabels acs (tractLabels intersects tracts redev))).filter
        (fun r => r.geoid == g) := by
      rw [h]
      exact List.mem_cons_of_mem r1 (List.mem_cons_self r2 rest)
    have hmf1 := List.of_mem_filter hm1
    have hmf2 := List.of_mem_filter hm2
    have hg1 : r1.geoid = g := beq_iff_eq.mp hmf1
    have hg2 : r2.geoid = g := beq_iff_eq.mp hmf2
    rcases hle with hlt | ⟨_, hyle⟩
    · rw [hg1, hg2] at hlt
      rw [strLtb_irrefl g] at hlt
      exact absurd hlt (by simp)
    · exact lt_of_le_of_ne hyle hy

/-- Witness for C4 at a two-year, one-tract panel. -/
theorem C4_witness :
    (∀ g2, (prepare_acs_panel allIntersect w4Acs ce1Tracts w1Redev).filter
        (fun e => e.1.geoid == g2)
        = diffWithin none
            ((sortPanel (mergeLabels w4Acs (tractLabels allIntersect ce1Tracts w1Redev))).filter
              (fun r => r.geoid == g2)))
    ∧ (prepare_acs_panel allIntersect w4Acs ce1Tracts w1Redev).filter
        (fun e => e.1.geoid == "a")
        = (w4Row1, w4Row1.vals.map (fun _ => PVal.nan))
          :: (w4Row2, (w4Row2.vals.zip w4Row1.vals).map (fun q => q.1.sub q.2))
          :: diffWithin (some w4Row2.vals) []
    ∧ w4Row1.year < w4Row2.year :=
  C4_delta_is_first_difference_within_tract allIntersect w4Acs ce1Tracts w1Redev
    "a" w4Row1 w4Row2 [] (by decide) (by decide)

theorem mergeLabels_cons (a : AcsDataRow) (acs : List AcsDataRow)
    (labels : List (String × String)) :
    mergeLabels (a :: acs) labels = mergeBlock a labels ++ mergeLabels acs labels := by
  rw [mergeLabels, mergeLabels, List.flatMap_cons]

theorem mergeBlock_fields (a : AcsDataRow) (labels : List (String × String)) :
    ∀ x ∈ mergeBlock a labels, x.geoid = a.geoid ∧ x.year = a.year := by
  intro x hx
  rw [mergeBlock] at hx
  rcases hf : labels.filter (fun l => l.1 == a.geoid) with _ | ⟨m, ms⟩ <;> rw [hf] at hx
  · simp only [List.mem_singleton] at hx
    subst hx
    exact ⟨rfl, rfl⟩
  · rcases List.mem_map.mp hx with ⟨l, _, hl⟩
    rw [← hl]
    exact ⟨rfl, rfl⟩

theorem mergeBlock_length (a : AcsDataRow) (labels : List (String × String)) :
    (mergeBlock a labels).length ≤ max 1 (labels.countP (fun l => l.1 == a.geoid)) := by
  rw [mergeBlock]
  rcases hf : labels.filter (fun l => l.1 == a.geoid) with _ | ⟨m, ms⟩ <;> rw [hf]
  · simp
  · rw [List.length_map]
    have hc : (m :: ms).length = labels.countP (fun l => l.1 == a.geoid) := by
      rw [List.countP_eq_length_filter, hf]
    rw [hc]
    exact le_max_right 1 _

theorem mergeLabels_countP_zero (g : String) (y : Int) (labels : List (String × String)) :
    ∀ acs : List AcsDataRow,
      acs.countP (fun a => a.geoid == g && a.year == y) = 0 →
      (mergeLabels acs labels).countP (fun r => r.geoid == g && r.year == y) = 0 := by
  intro acs
  induction acs with
  | nil => intro _; rfl
  | cons a acs ih =>
    intro h
    rw [List.countP_cons] at h
    have hz : acs.countP (fun a => a.geoid == g && a.year == y) = 0 ∧
        ¬ ((a.geoid == g && a.year == y) = true) := by
      by_cases hp : (a.geoid == g && a.year == y) = true
      · rw [if_pos hp] at h
        omega
      · rw [if_neg hp] at h
        exact ⟨by omega, hp⟩
    rw [mergeLabels_cons, List.countP_append, ih hz.1]
    have hb : (mergeBlock a labels).countP (fun r => r.geoid == g && r.year == y) = 0 := by
      rw [List.countP_eq_zero]
      intro x hx hpx
      obtain ⟨h1, h2⟩ := mergeBlock_fields a labels x hx
      rw [h1, h2] at hpx
      exact hz.2 hpx
    rw [hb]

theorem mergeLabels_countP_le_one (g : String) (y : Int) (labels : List (String × String))
    (hL : labels.countP (fun l => l.1 == g) ≤ 1) :
    ∀ acs : List AcsDataRow,
      acs.countP (fun a => a.geoid == g && a.year == y) ≤ 1 →
      (mergeLabels acs labels).countP (fun r => r.geoid == g && r.year == y) ≤ 1 := by
  intro acs
  induction acs with
  | nil => intro _; simp [mergeLabels]
  | cons a acs ih =>
    intro hA
    rw [mergeLabels_cons, List.countP_append]
    by_cases hka : (a.geoid == g && a.year == y) = true
    · have hAc : acs.countP (fun a => a.geoid == g && a.year == y) = 0 := by
        rw [List.countP_cons, if_pos hka] at hA
        omega
      rw [mergeLabels_countP_zero g y labels acs hAc]
      have hgeq : a.geoid = g := beq_iff_eq.mp (Bool.and_elim_left hka)
      have hb1 : (mergeBlock a labels).countP (fun r => r.geoid == g && r.year == y)
          ≤ max 1 (labels.countP (fun l => l.1 == a.geoid)) :=
        le_trans (List.countP_le_length _) (mergeBlock_length a labels)
      rw [hgeq] at hb1
      omega
    · have hbz : (mergeBlock a labels).countP (fun r => r.geoid == g && r.year == y) = 0 := by
        rw [List.countP_eq_zero]
        intro x hx hpx
        obtain ⟨h1, h2⟩ := mergeBlock_fields a labels x hx
        rw [h1, h2] at hpx
        exact hka hpx
      rw [hbz]
      have hAc : acs.countP (fun a => a.geoid == g && a.year == y) ≤ 1 := by
        rw [List.countP_cons] at hA
        omega
      simpa using ih hAc

/-- C1 (amended): the panel is unique per `(tract, year)` provided the
tract-to-label table carries at most one row per tract — equivalently,
no tract polygon intersects more than one redevelopment boundary — and
the ACS input is unique per `(tract, year)`.  (The counterexample shows
the unconditional claim fails: a tract matching two boundaries yields
two panel rows for the same key.) -/
theorem C1_panel_unique_given_unique_labels {G : Type} (intersects : G → G → Bool)
    (acs : List AcsDataRow) (tracts : TractsFrame G) (redev : RedevFrame G)
    (hA : ∀ g y, acs.countP (fun a => a.geoid == g && a.year == y) ≤ 1)
    (hL : ∀ g, (tractLabels intersects tracts redev).countP (fun l => l.1 == g) ≤ 1)
    (g : String) (y : Int) :
    panelKeyCount (prepare_acs_panel intersects acs tracts redev) g y ≤ 1 := by
  rw [panelKeyCount, prepare_acs_panel]
  have hmap := diffByGroup_fst
    (sortPanel (mergeLabels acs (tractLabels intersects tracts redev))) []
  have h1 : (diffByGroup []
        (sortPanel (mergeLabels acs (tractLabels intersects tracts redev)))).countP
        (fun e => e.1.geoid == g && e.1.year == y)
      = (sortPanel (mergeLabels acs (tractLabels intersects tracts redev))).countP
        (fun r => r.geoid == g && r.year == y) := by
    conv_rhs => rw [← hmap]
    rw [List.countP_map]
    rfl
  rw [h1, (sortPanel_perm (mergeLabels acs (tractLabels intersects tracts redev))).countP_eq
    (fun r => r.geoid == g && r.year == y)]
  exact mergeLabels_countP_le_one g y (tractLabels intersects tracts redev) (hL g) acs (hA g y)

/-- C1, counterexample: a tract whose polygon intersects two
redevelopment boundaries receives two label rows, and the left merge then
emits two panel rows for the same `(tract, year)` key — the label join
does multiply panel rows. -/
theorem C1_counterexample_two_boundaries_duplicate_key :
    panelKeyCount (prepare_acs_panel allIntersect ce1Acs ce1Tracts ce1Redev) "a" 2020 = 2
    ∧ ¬ panelKeyCount (prepare_acs_panel allIntersect ce1Acs ce1Tracts ce1Redev) "a" 2020 ≤ 1 := by
  constructor <;> decide

/-- Witness for the amended C1: with a single boundary, the key count of
the one populated `(tract, year)` pair stays at most one. -/
theorem C1_witness :
    panelKeyCount (prepare_acs_panel allIntersect ce1Acs ce1Tracts w1Redev) "a" 2020 ≤ 1 :=
  C1_panel_unique_given_unique_labels allIntersect ce1Acs ce1Tracts w1Redev
    (fun _ _ => le_trans (List.countP_le_length _) (by decide))
    (fun _ => le_trans (List.countP_le_length _) (by decide))
    "a" 2020
